import Mathlib

/-!
Verification development for the Pipedream "workflow-builder-connect"
integration layer.

The TypeScript sources are shallowly embedded as executable Lean
definitions:

* a JSON value model (`Jval`) with a serializer (`jstringify`) and a
  parser (`jparse`) standing in for the platform's `JSON.stringify` /
  `JSON.parse` (numbers are modelled as integers: the configuration
  blobs under study only carry strings, booleans, integers and nested
  objects/arrays, and floating-point formatting is out of scope);
* the server-side forwarding module (`serverConnectTokenCreate`,
  `runPipedreamAction`, `isPipedreamConfigured`, the status route);
* the executable action step (`pipedreamActionStep`), with the remote
  vendor call supplied as an oracle and the performed calls returned as
  an explicit trace;
* the client configuration component as a state machine over an explicit
  component-state record (`CState`), with `handleAppChange`,
  `handleComponentChange`, `handleConfiguredPropsUpdate` and
  `persistConfiguredProps` as state transformers;
* the defensive props serialization (`collectPropKeys`, `serializeProps`)
  over an object model (`PropsObj`) whose key enumeration and property
  reads may fail, mirroring Proxy-wrapped vendor objects.

Exceptions are modelled with `Except`: a `.error` result of an embedded
function is an exception propagating past that function's boundary.

JSON arrays and object member lists are dedicated mutual inductive types
(`Jarr`, `Jmembers`) rather than nested `List`s so that all functions
over them are structurally recursive and evaluate by kernel reduction.
-/

mutual

/-- JSON values. Numbers are modelled as integers (see module comment). -/
inductive Jval where
  | null : Jval
  | bool : Bool → Jval
  | num : Int → Jval
  | str : String → Jval
  | arr : Jarr → Jval
  | obj : Jmembers → Jval

/-- A list of JSON array elements. -/
inductive Jarr where
  | nil : Jarr
  | cons : Jval → Jarr → Jarr

/-- A list of JSON object members (key/value pairs, in insertion order). -/
inductive Jmembers where
  | nil : Jmembers
  | cons : String → Jval → Jmembers → Jmembers

end

/-- True exactly on boolean JSON values. -/
def Jval.isBool : Jval → Bool
  | .bool _ => true
  | _ => false

/-- JavaScript truthiness of a JSON value. -/
def jvalTruthy : Jval → Bool
  | .null => false
  | .bool b => b
  | .num n => n ≠ 0
  | .str s => s ≠ ""
  | .arr _ => true
  | .obj _ => true

/-- Keys of an object member list, in order. -/
def Jmembers.keys : Jmembers → List String
  | .nil => []
  | .cons k _ rest => k :: Jmembers.keys rest

/-- First value stored under a key, the model of a property read on a
plain object with unique keys. -/
def Jmembers.valueOf : Jmembers → String → Option Jval
  | .nil, _ => none
  | .cons k v rest, key => if k = key then some v else Jmembers.valueOf rest key

/-- Append two member lists. -/
def Jmembers.append : Jmembers → Jmembers → Jmembers
  | .nil, ms => ms
  | .cons k v rest, ms => .cons k v (Jmembers.append rest ms)

/-- Membership of a key/value pair in a member list. -/
def Jmembers.holds : Jmembers → String → Jval → Prop
  | .nil, _, _ => False
  | .cons k v rest, key, value => (k = key ∧ v = value) ∨ Jmembers.holds rest key value

/-- Decimal digit character for a value below ten. -/
def digitChar : Nat → Char
  | 0 => '0'
  | 1 => '1'
  | 2 => '2'
  | 3 => '3'
  | 4 => '4'
  | 5 => '5'
  | 6 => '6'
  | 7 => '7'
  | 8 => '8'
  | _ => '9'

/-- Fueled digit expansion; the fuel only needs to exceed the number of
decimal digits, see `natChars`. -/
def natCharsAux : Nat → Nat → List Char
  | 0, _ => []
  | fuel + 1, n =>
      if n < 10 then [digitChar n]
      else natCharsAux fuel (n / 10) ++ [digitChar (n % 10)]

/-- Decimal digit characters of a natural number, most significant first. -/
def natChars (n : Nat) : List Char := natCharsAux (n + 1) n

/-- Decimal representation of an integer, as in JavaScript number printing. -/
def intChars (n : Int) : List Char :=
  if n < 0 then '-' :: natChars n.natAbs else natChars n.toNat

/-- Escape a character inside a JSON string literal: quote and backslash
are backslash-escaped, other characters pass through. -/
def escChar (c : Char) : List Char :=
  if c = '"' ∨ c = '\\' then ['\\', c] else [c]

/-- Escape every character of a string body. -/
def escString : List Char → List Char
  | [] => []
  | c :: cs => escChar c ++ escString cs

mutual

/-- Serialize a JSON value, the compact output format of
`JSON.stringify` (no whitespace). -/
def stringifyVal : Jval → List Char
  | .bool false => ['f', 'a', 'l', 's', 'e']
  | .bool true => ['t', 'r', 'u', 'e']
  | .null => ['n', 'u', 'l', 'l']
  | .num n => intChars n
  | .str s => '"' :: (escString s.data ++ ['"'])
  | .arr .nil => ['[', ']']
  | .arr (.cons v vs) => '[' :: (stringifyVal v ++ (stringifyArrSeq vs ++ [']']))
  | .obj .nil => ['{', '}']
  | .obj (.cons k v ms) =>
      '{' :: ('"' :: (escString k.data ++ ('"' :: ':' :: (stringifyVal v
        ++ (stringifyObjSeq ms ++ ['}'])))))

/-- Serialization of trailing array elements, each preceded by a comma. -/
def stringifyArrSeq : Jarr → List Char
  | .nil => []
  | .cons v vs => ',' :: (stringifyVal v ++ stringifyArrSeq vs)

/-- Serialization of trailing object members, each preceded by a comma. -/
def stringifyObjSeq : Jmembers → List Char
  | .nil => []
  | .cons k v ms =>
      ',' :: ('"' :: (escString k.data ++ ('"' :: ':' :: (stringifyVal v
        ++ stringifyObjSeq ms))))

end

mutual

/-- Structural size of a JSON value, used as a parser fuel bound. -/
def jsize : Jval → Nat
  | .null => 1
  | .bool _ => 1
  | .num _ => 1
  | .str _ => 1
  | .arr vs => 1 + jsizeArr vs
  | .obj ms => 1 + jsizeMembers ms

/-- Structural size of an element list. -/
def jsizeArr : Jarr → Nat
  | .nil => 1
  | .cons v vs => 1 + jsize v + jsizeArr vs

/-- Structural size of a member list. -/
def jsizeMembers : Jmembers → Nat
  | .nil => 1
  | .cons _ v ms => 1 + jsize v + jsizeMembers ms

end

/-- Digit test on characters. -/
def isDigit (c : Char) : Bool := 48 ≤ c.toNat && c.toNat ≤ 57

/-- Value of a digit character. -/
def digitVal (c : Char) : Nat := c.toNat - 48

/-- Greedily consume decimal digits, accumulating their value. -/
def parseDigitsAux : List Char → Nat → Nat × List Char
  | [], acc => (acc, [])
  | c :: cs, acc =>
      if isDigit c then parseDigitsAux cs (10 * acc + digitVal c)
      else (acc, c :: cs)

/-- Parse an optionally negated decimal integer (at least one digit). -/
def parseNum : List Char → Option (Int × List Char)
  | [] => none
  | c :: cs =>
      if c = '-' then
        match cs with
        | [] => none
        | d :: _ =>
            if isDigit d then
              let p := parseDigitsAux cs 0
              some (-(p.1 : Int), p.2)
            else none
      else if isDigit c then
        let p := parseDigitsAux (c :: cs) 0
        some ((p.1 : Int), p.2)
      else none

/-- Undo a backslash escape inside a JSON string literal. -/
def unescChar (c : Char) : Char :=
  if c = 'n' then '\n'
  else if c = 't' then '\t'
  else if c = 'r' then '\r'
  else if c = 'b' then '\x08'
  else if c = 'f' then '\x0c'
  else c

/-- Worker for JSON string-body parsing; the flag records that the
previous character was a backslash whose escape is still pending. -/
def parseStrTok : Bool → List Char → Option (List Char × List Char)
  | _, [] => none
  | true, c :: rest =>
      match parseStrTok false rest with
      | none => none
      | some (s, r) => some (unescChar c :: s, r)
  | false, c :: rest =>
      if c = '"' then some ([], rest)
      else if c = '\\' then parseStrTok true rest
      else
        match parseStrTok false rest with
        | none => none
        | some (s, r) => some (c :: s, r)

/-- Parse a JSON string body up to and including the closing quote,
returning the decoded characters and the remaining input. -/
def parseStrBody : List Char → Option (List Char × List Char) :=
  parseStrTok false

/-- Strip an expected literal character sequence from the input. -/
def stripLit : List Char → List Char → Option (List Char)
  | [], cs => some cs
  | _ :: _, [] => none
  | l :: ls, c :: cs => if c = l then stripLit ls cs else none

mutual

/-- Fueled JSON value parser (no whitespace, integer numbers). -/
def parseVal : Nat → List Char → Option (Jval × List Char)
  | 0, _ => none
  | _ + 1, [] => none
  | fuel + 1, c :: rest =>
      if c = 'n' then
        match stripLit ['u', 'l', 'l'] rest with
        | some r => some (.null, r)
        | none => none
      else if c = 't' then
        match stripLit ['r', 'u', 'e'] rest with
        | some r => some (.bool true, r)
        | none => none
      else if c = 'f' then
        match stripLit ['a', 'l', 's', 'e'] rest with
        | some r => some (.bool false, r)
        | none => none
      else if c = '"' then
        match parseStrBody rest with
        | some (s, r) => some (.str (String.mk s), r)
        | none => none
      else if c = '[' then
        match rest with
        | [] => none
        | r0 :: rtail =>
            if r0 = ']' then some (.arr .nil, rtail)
            else
              match parseArrElems fuel (r0 :: rtail) with
              | some (vs, r) => some (.arr vs, r)
              | none => none
      else if c = '{' then
        match rest with
        | [] => none
        | r0 :: rtail =>
            if r0 = '}' then some (.obj .nil, rtail)
            else
              match parseObjMembers fuel (r0 :: rtail) with
              | some (ms, r) => some (.obj ms, r)
              | none => none
      else
        match parseNum (c :: rest) with
        | some (n, r) => some (.num n, r)
        | none => none

/-- Parse one or more comma-separated array elements and the closing
bracket. -/
def parseArrElems : Nat → List Char → Option (Jarr × List Char)
  | 0, _ => none
  | fuel + 1, cs =>
      match parseVal fuel cs with
      | none => none
      | some (v, r) =>
          match r with
          | [] => none
          | d :: r2 =>
              if d = ',' then
                match parseArrElems fuel r2 with
                | some (vs, r3) => some (.cons v vs, r3)
                | none => none
              else if d = ']' then some (.cons v .nil, r2)
              else none

/-- Parse one or more comma-separated object members and the closing
brace. -/
def parseObjMembers : Nat → List Char → Option (Jmembers × List Char)
  | 0, _ => none
  | fuel + 1, cs =>
      match cs with
      | [] => none
      | q :: rest =>
          if q = '"' then
            match parseStrBody rest with
            | none => none
            | some (k, r) =>
                match r with
                | [] => none
                | colon :: r2 =>
                    if colon = ':' then
                      match parseVal fuel r2 with
                      | none => none
                      | some (v, r3) =>
                          match r3 with
                          | [] => none
                          | d :: r4 =>
                              if d = ',' then
                                match parseObjMembers fuel r4 with
                                | some (ms, r5) => some (.cons (String.mk k) v ms, r5)
                                | none => none
                              else if d = '}' then some (.cons (String.mk k) v .nil, r4)
                              else none
                    else none
          else none

end

/-- Serialize a JSON value to a string, the model of `JSON.stringify`. -/
def jstringify (v : Jval) : String := String.mk (stringifyVal v)

/-- Parse a string as a single JSON value, the model of `JSON.parse`;
`none` models the thrown `SyntaxError`. -/
def jparse (s : String) : Option Jval :=
  match parseVal (2 * s.data.length + 2) s.data with
  | some (v, []) => some v
  | _ => none

/-- Input positions at which a JSON value may legally end: end of input
or a closing delimiter produced by the serializer. -/
def restDelim : List Char → Prop
  | [] => True
  | c :: _ => c = ',' ∨ c = '}' ∨ c = ']'

/-- Inputs whose head cannot extend a decimal number. -/
def headNotDigit : List Char → Prop
  | [] => True
  | c :: _ => isDigit c = false

/-! Server-side forwarding module (`lib/pipedream/server.ts`). -/

/-- A JavaScript string-or-undefined value, as read from `process.env`. -/
inductive JsStr where
  | undef : JsStr
  | str : String → JsStr
deriving DecidableEq

/-- JavaScript truthiness: `undefined` and the empty string are falsy. -/
def JsStr.truthy : JsStr → Bool
  | .undef => false
  | .str s => s ≠ ""

/-- JavaScript `a && b`: the first falsy operand, otherwise the second. -/
def jsAndStr (a b : JsStr) : JsStr := if a.truthy then b else a

/-- An environment variable as a JavaScript value. -/
def ofEnvVar : Option String → JsStr
  | none => .undef
  | some s => .str s

/-- JavaScript `a || b` on strings, with absent values collapsed to `""`
(both are falsy). -/
def jsOr (a b : String) : String := if a = "" then b else a

/-- The environment variables destructured at the top of the server
module. -/
structure PdEnv where
  clientId : Option String
  clientSecret : Option String
  projectId : Option String
  projectEnvironment : Option String
  allowedOrigins : Option String
deriving DecidableEq

/-- Embeds the module-level
`isPipedreamConfigured = PIPEDREAM_CLIENT_ID && PIPEDREAM_CLIENT_SECRET && PIPEDREAM_PROJECT_ID`.
In JavaScript this chain yields the first falsy operand or the last
operand - a string or `undefined`, not a boolean. -/
def isPipedreamConfigured (env : PdEnv) : JsStr :=
  jsAndStr (jsAndStr (ofEnvVar env.clientId) (ofEnvVar env.clientSecret))
    (ofEnvVar env.projectId)

/-- The vendor project environment. -/
inductive ProjectEnvironment where
  | production : ProjectEnvironment
  | development : ProjectEnvironment
deriving DecidableEq

/-- Embeds `getProjectEnvironment`. -/
def getProjectEnvironment (env : PdEnv) : ProjectEnvironment :=
  if env.projectEnvironment = some "production" then .production
  else .development

/-- Whether the module-level `client` was constructed; the source guards
with `isPipedreamConfigured && CLIENT_ID && CLIENT_SECRET && PROJECT_ID`. -/
def clientAvailable (env : PdEnv) : Bool :=
  (jsAndStr (jsAndStr (jsAndStr (isPipedreamConfigured env)
    (ofEnvVar env.clientId)) (ofEnvVar env.clientSecret))
    (ofEnvVar env.projectId)).truthy

/-- An optional string that is present and non-empty. -/
def present : Option String → Bool
  | none => false
  | some s => s ≠ ""

/-- Boolean form of "the three required credentials are configured". -/
def pdCredsPresent (env : PdEnv) : Bool :=
  present env.clientId && present env.clientSecret && present env.projectId

/-- Vendor response of `client.tokens.create`. -/
structure TokenResponse where
  token : String
  expiresAt : String
  connectLinkUrl : String
deriving DecidableEq

/-- One network call to the vendor SDK. -/
inductive NetCall where
  | tokensCreate (externalUserId : String) (allowedOrigins : Jval)
  | actionsRun (id : String) (externalUserId : String) (configuredProps : Jval)

/-- The configuration error thrown by `serverConnectTokenCreate`. -/
def tokenCreateNotConfiguredMsg : String :=
  "Pipedream is not configured. Please add PIPEDREAM_CLIENT_ID, PIPEDREAM_CLIENT_SECRET, and PIPEDREAM_PROJECT_ID environment variables."

/-- The configuration error thrown by `runPipedreamAction`. -/
def runActionNotConfiguredMsg : String := "Pipedream is not configured."

/-- Embeds `serverConnectTokenCreate`; the vendor `tokens.create` call is
an oracle and the second component lists the vendor calls made.
`.error` models a thrown exception. -/
def serverConnectTokenCreate (env : PdEnv)
    (tokens : String → Jval → Except String TokenResponse)
    (externalUserId : String) :
    Except String TokenResponse × List NetCall :=
  if clientAvailable env = false then
    (.error tokenCreateNotConfiguredMsg, [])
  else
    match jparse (jsOr (env.allowedOrigins.getD "") "[]") with
    | none => (.error "SyntaxError: Unexpected token in JSON", [])
    | some allowedOrigins =>
        match tokens externalUserId allowedOrigins with
        | .ok response =>
            (.ok { token := response.token, expiresAt := response.expiresAt,
                   connectLinkUrl := response.connectLinkUrl },
             [.tokensCreate externalUserId allowedOrigins])
        | .error e => (.error e, [.tokensCreate externalUserId allowedOrigins])

/-- Embeds `runPipedreamAction`; the vendor `actions.run` call is an
oracle taking the component id, the external user id and the configured
props. -/
def runPipedreamAction (env : PdEnv)
    (actions : String → String → Jval → Except String Jval)
    (externalUserId componentKey : String) (configuredProps : Jval) :
    Except String Jval × List NetCall :=
  if clientAvailable env = false then
    (.error runActionNotConfiguredMsg, [])
  else
    match actions componentKey externalUserId configuredProps with
    | .ok data =>
        (.ok data, [.actionsRun componentKey externalUserId configuredProps])
    | .error e =>
        (.error e, [.actionsRun componentKey externalUserId configuredProps])

/-- Embeds `isPipedreamEnabled`, which returns `isPipedreamConfigured`
unchanged (wrapped in a promise). -/
def isPipedreamEnabled (env : PdEnv) : JsStr := isPipedreamConfigured env

/-- Embeds the status route `GET`: `Response.json({ enabled })`. JSON
serialization drops an `undefined`-valued field and keeps a string
field. -/
def statusRouteBody (env : PdEnv) : Jmembers :=
  match isPipedreamEnabled env with
  | .undef => .nil
  | .str s => .cons "enabled" (.str s) .nil

/-- Truthiness of the `enabled` field of a JSON body (absent is falsy). -/
def enabledFlag (body : Jmembers) : Bool :=
  match body.valueOf "enabled" with
  | some v => jvalTruthy v
  | none => false

/-! The executable action step
(`plugins/pipedream/steps/pipedream-action/step.ts`, and the earlier
revision of the same function without the logging wrapper). The remote
call is an oracle. `withStepLogging` is modelled from the spec as a
transparent wrapper returning the callback's result (the spec assigns it
no error handling, and the earlier revision has no wrapper at all), and
`getErrorMessage` as the extraction of the failure's message text (spec:
a vendor call failure is caught generically and "reduced to its message
text"). -/

/-- The `pipedreamConfiguredProps` input: a JSON-encoded string, an
object, or absent. -/
inductive PropsValue where
  | str : String → PropsValue
  | obj : Jmembers → PropsValue
  | missing : PropsValue

/-- The step input; `pipedreamComponentKey` is `none` when missing. -/
structure StepInput where
  pipedreamComponentKey : Option String
  pipedreamConfiguredProps : PropsValue
  externalUserId : Option String

/-- One invocation of `runPipedreamAction` made by the step. -/
structure RunCall where
  externalUserId : String
  componentKey : String
  configuredProps : Jval

/-- The step's declared result type. -/
inductive StepResult where
  | success (data : Jval)
  | failure (error : String)

/-- JavaScript falsiness of an optional string (`!x`). -/
def strFalsy : Option String → Bool
  | none => true
  | some s => s = ""

/-- The try/catch around the `runPipedreamAction` call in the step. -/
def tryRunPipedream (vendorRun : RunCall → Except String Jval)
    (call : RunCall) : Except String StepResult × List RunCall :=
  match vendorRun call with
  | .ok data => (.ok (.success data), [call])
  | .error msg =>
      (.ok (.failure ("Pipedream action failed: " ++ msg)), [call])

/-- Embeds `pipedreamActionStep`. The result pair is the outcome (a
`.error` is an exception escaping the step boundary) and the trace of
`runPipedreamAction` invocations. The `JSON.parse` of a string-encoded
parameter mapping happens outside the try/catch, as in the source. -/
def pipedreamActionStep (envExternalUserId : Option String)
    (input : StepInput) (vendorRun : RunCall → Except String Jval) :
    Except String StepResult × List RunCall :=
  let externalUserId :=
    jsOr (input.externalUserId.getD "")
      (jsOr (envExternalUserId.getD "") "anonymous")
  if strFalsy input.pipedreamComponentKey then
    (.ok (.failure "No Pipedream component key specified"), [])
  else
    let key := input.pipedreamComponentKey.getD ""
    match input.pipedreamConfiguredProps with
    | .str s =>
        match jparse s with
        | none => (.error "SyntaxError: Unexpected token in JSON", [])
        | some props => tryRunPipedream vendorRun ⟨externalUserId, key, props⟩
    | .obj o => tryRunPipedream vendorRun ⟨externalUserId, key, .obj o⟩
    | .missing => tryRunPipedream vendorRun ⟨externalUserId, key, .obj .nil⟩

/-! Defensive props serialization from the action-config component
(`collectPropKeys` / `serializeProps`). Vendor props objects may be
Proxy-wrapped: each key-enumeration source and each property read can
throw. -/

/-- A possibly Proxy-wrapped props object: the three key-enumeration
sources used by `collectPropKeys`, and a property reader. `.error ()`
models a thrown exception; `.ok none` models a read yielding
`undefined`. -/
structure PropsObj where
  keysEnum : Except Unit (List String)
  keysOwn : Except Unit (List String)
  keysReflect : Except Unit (List String)
  getProp : String → Except Unit (Option Jval)

/-- Ordered-set insertion (the `Set` used in `collectPropKeys`). -/
def addKey (acc : List String) (k : String) : List String :=
  if k ∈ acc then acc else acc ++ [k]

/-- Insert a list of keys in order. -/
def addKeys (acc : List String) : List String → List String
  | [] => acc
  | k :: ks => addKeys (addKey acc k) ks

/-- Embeds `collectPropKeys`: `Object.keys`, then
`Object.getOwnPropertyNames`, then the additional names, then
`Reflect.ownKeys` guarded by try/catch. The first two enumerations are
not guarded in the source, so a failure there propagates. -/
def collectPropKeys (props : PropsObj) (additionalNames : List String) :
    Except Unit (List String) :=
  match props.keysEnum with
  | .error e => .error e
  | .ok k1 =>
      match props.keysOwn with
      | .error e => .error e
      | .ok k2 =>
          let base := addKeys (addKeys (addKeys [] k1) k2) additionalNames
          match props.keysReflect with
          | .ok k3 => .ok (addKeys base k3)
          | .error _ => .ok base

/-- Pull the value of each key in order, skipping `undefined` values and
individual property-read failures, as in the `serializeProps` loop. -/
def pullValues (props : PropsObj) : List String → Jmembers
  | [] => .nil
  | name :: rest =>
      match props.getProp name with
      | .ok (some v) => .cons name v (pullValues props rest)
      | .ok none => pullValues props rest
      | .error _ => pullValues props rest

/-- Embeds the final `JSON.parse(JSON.stringify(serializable))` of
`serializeProps`, with the spread-copy fallback of the source when
serialization fails (unreachable here since `jstringify` is total). -/
def jsonClone (ms : Jmembers) : Jmembers :=
  match jparse (jstringify (.obj ms)) with
  | some (.obj ms2) => ms2
  | _ => ms

/-- Embeds `serializeProps`. -/
def serializeProps (props : PropsObj) (propNames : List String) :
    Except Unit Jmembers :=
  match collectPropKeys props propNames with
  | .error e => .error e
  | .ok keys => .ok (jsonClone (pullValues props keys))

/-- Unique keys of a member list in insertion order (`Object.keys` of the
corresponding plain object). -/
def dedupKeys (ms : Jmembers) : List String := addKeys [] ms.keys

/-- A plain (non-Proxy) object: all enumerations agree on the unique keys
in insertion order and reads return the stored values. -/
def PropsObj.ofPlain (ms : Jmembers) : PropsObj :=
  { keysEnum := .ok (dedupKeys ms)
    keysOwn := .ok (dedupKeys ms)
    keysReflect := .ok (dedupKeys ms)
    getProp := fun k => .ok (ms.valueOf k) }

/-! The action-config component (the plugin revision of
`PipedreamActionConfig`) as a state machine. `onUpdateConfig` writes are
updates of an association list of string config values; React state and
refs are fields of `CState`. The debounce around
`persistConfiguredProps` only delays the write (it coalesces rapid
updates and is flushed on unmount), so `handleConfiguredPropsUpdate`
applies the persist synchronously. The node-label and description
callbacks do not touch the config map and are not modelled. -/

/-- Drop all entries stored under a key. -/
def removeKey : List (String × String) → String → List (String × String)
  | [], _ => []
  | p :: rest, k => if p.1 = k then removeKey rest k else p :: removeKey rest k

/-- Set a config key (`onUpdateConfig`). -/
def setKey (m : List (String × String)) (k v : String) :
    List (String × String) :=
  (k, v) :: removeKey m k

/-- Look up a config key. -/
def lookupS : List (String × String) → String → Option String
  | [], _ => none
  | (k, v) :: rest, key => if k = key then some v else lookupS rest key

/-- The selected application (vendor `App`): slug, display name, logo. -/
structure App4 where
  nameSlug : String
  name : String
  imgSrc : String

/-- The selected action (vendor `Component`): key, display name, and the
names of its configurable props. -/
structure Component4 where
  key : String
  name : String
  configurableProps : List String

/-- Component state: the workflow node config map plus the React state
and refs of `PipedreamActionConfig`. -/
structure CState where
  config : List (String × String)
  selectedApp : Option App4
  selectedComponent : Option Component4
  configuredProps : Jmembers
  latestDynamicProps : List String
  lastSavedPropsJson : String
  lastSavedComponentKey : String
  initialPropsCount : Nat
  hasReceivedUserInput : Bool
  externalUserId : String

/-- Embeds the `serializedPropNames` memo: base prop names of the
selected component followed by the latest dynamic prop names. -/
def serializedPropNames (s : CState) : List String :=
  addKeys (addKeys [] (match s.selectedComponent with
    | some c => c.configurableProps
    | none => [])) s.latestDynamicProps

/-- The component always passes plain objects (the form's emissions) to
`serializeProps`; for those the error case cannot occur. -/
def serializePropsPlain (props : Jmembers) (names : List String) : Jmembers :=
  match serializeProps (PropsObj.ofPlain props) names with
  | .ok ms => ms
  | .error _ => .nil

/-- Embeds `persistConfiguredProps`: skipped without a selected
component key; an empty payload is dropped whenever a non-empty,
non-`"{}"` serialization was saved before; the serialized props (and the
owning external user id) are written only when the serialization
changed, and the component key only when it changed. -/
def persistConfiguredProps (s : CState) (props : Jmembers) : CState :=
  match s.selectedComponent with
  | none => s
  | some comp =>
      if comp.key = "" then s
      else if s.lastSavedPropsJson ≠ "" ∧ s.lastSavedPropsJson ≠ "\x7b\x7d"
          ∧ (dedupKeys props).length = 0 then s
      else
        let plainProps := serializePropsPlain props (serializedPropNames s)
        let json := jstringify (.obj plainProps)
        let s1 :=
          if json ≠ s.lastSavedPropsJson then
            let s2 := { s with
              lastSavedPropsJson := json
              config := setKey s.config "pipedreamConfiguredProps" json }
            if s.externalUserId ≠ "" ∧ s.externalUserId ≠ "anonymous" then
              { s2 with config :=
                  setKey s2.config "pipedreamExternalUserId" s.externalUserId }
            else s2
          else s
        if comp.key ≠ s1.lastSavedComponentKey then
          { s1 with
            lastSavedComponentKey := comp.key
            config := setKey s1.config "pipedreamComponentKey" comp.key }
        else s1

/-- Embeds `handleConfiguredPropsUpdate`. Before any accepted user input,
an emission with fewer keys than the initially loaded props is ignored
entirely; an emission with at least as many keys marks user input as
received. -/
def handleConfiguredPropsUpdate (s : CState) (props : Jmembers) : CState :=
  let incomingCount := (dedupKeys props).length
  if ¬s.hasReceivedUserInput = true ∧ 0 < s.initialPropsCount
      ∧ incomingCount < s.initialPropsCount then s
  else
    let s1 :=
      if s.initialPropsCount ≤ incomingCount then
        { s with hasReceivedUserInput := true }
      else s
    let s2 := { s1 with configuredProps := props }
    persistConfiguredProps s2 props

/-- Embeds `handleAppChange`. -/
def handleAppChange (s : CState) (app : Option App4) : CState :=
  { s with
    selectedApp := app
    selectedComponent := none
    configuredProps := .nil
    config :=
      setKey (setKey (setKey (setKey (setKey s.config
        "pipedreamApp" (match app with | some a => a.nameSlug | none => ""))
        "pipedreamAppName"
          (match app with | some a => jsOr a.name a.nameSlug | none => ""))
        "pipedreamAppLogo" (match app with | some a => a.imgSrc | none => ""))
        "pipedreamComponentKey" "")
        "pipedreamConfiguredProps" (jstringify (.obj .nil)) }

/-- Embeds `handleComponentChange`. The `setSelectedComponent` state
update is not visible to the `persistConfiguredProps` closure invoked in
the same handler, so that persist runs against the previous selected
component. -/
def handleComponentChange (s : CState) (comp : Option Component4) : CState :=
  let sPersist := persistConfiguredProps s .nil
  { sPersist with
    selectedComponent := comp
    configuredProps := .nil
    config :=
      setKey (setKey sPersist.config
        "pipedreamComponentKey" (match comp with | some c => c.key | none => ""))
        "pipedreamConfiguredProps" (jstringify (.obj .nil)) }

/-- Embeds the `useState` initializers (mount). A stored props string
that fails to parse initializes the empty mapping (the initializer's
try/catch); a parse result that is not an object carries no string keys
and is modelled as the empty mapping. -/
def mountState (config : List (String × String)) (externalUserId : String) :
    CState :=
  let app : Option App4 :=
    match lookupS config "pipedreamApp" with
    | some slug =>
        if slug = "" then none
        else some
          ⟨slug, jsOr ((lookupS config "pipedreamAppName").getD "") slug,
            (lookupS config "pipedreamAppLogo").getD ""⟩
    | none => none
  let comp : Option Component4 :=
    match lookupS config "pipedreamComponentKey" with
    | some k =>
        if k = "" then none
        else some { key := k, name := k, configurableProps := [] }
    | none => none
  let props : Jmembers :=
    match lookupS config "pipedreamConfiguredProps" with
    | some stored =>
        if stored = "" then .nil
        else
          match jparse stored with
          | some (.obj ms) => ms
          | _ => .nil
    | none => .nil
  { config := config
    selectedApp := app
    selectedComponent := comp
    configuredProps := props
    latestDynamicProps := []
    lastSavedPropsJson := ""
    lastSavedComponentKey := ""
    initialPropsCount := (dedupKeys props).length
    hasReceivedUserInput := false
    externalUserId := externalUserId }

/-- Whether the selected app must be re-synced from the config. -/
def appNeedsSync (sel : Option App4) (slug : String) : Bool :=
  match sel with
  | none => true
  | some a => a.nameSlug ≠ slug

/-- Whether the selected component must be re-synced from the config. -/
def compNeedsSync (sel : Option Component4) (key : String) : Bool :=
  match sel with
  | none => true
  | some c => c.key ≠ key

/-- Embeds the hydration effect (the `useEffect` re-syncing state from
config changes). Its `JSON.parse` is unguarded, so an invalid stored
string throws (`.error ()`). A non-object parse result carries no
string-keyed entries and leaves `configuredProps` unchanged here. -/
def hydrationEffect (s : CState) : Except Unit CState :=
  let nameSlug := (lookupS s.config "pipedreamApp").getD ""
  let key := (lookupS s.config "pipedreamComponentKey").getD ""
  let s1 :=
    if nameSlug ≠ "" ∧ appNeedsSync s.selectedApp nameSlug = true then
      { s with selectedApp := (some
          ⟨nameSlug, jsOr ((lookupS s.config "pipedreamAppName").getD "") nameSlug,
            (lookupS s.config "pipedreamAppLogo").getD ""⟩) }
    else s
  let s2 :=
    if key ≠ "" ∧ compNeedsSync s1.selectedComponent key = true then
      { s1 with selectedComponent := (some
          ⟨key, jsOr ((lookupS s1.config "pipedreamComponentName").getD "") key, []⟩) }
    else s1
  match lookupS s2.config "pipedreamConfiguredProps" with
  | none => .ok s2
  | some stored =>
      if stored = "" then .ok s2
      else
        match jparse stored with
        | none => .error ()
        | some (.obj ms) =>
            if 0 < (dedupKeys ms).length then
              .ok { s2 with configuredProps := ms }
            else .ok s2
        | some _ => .ok s2

/-- One user-visible operation on the configuration component. -/
inductive CfgOp where
  | appChange (app : Option App4)
  | componentChange (comp : Option Component4)
  | propsUpdate (props : Jmembers)

/-- Apply one operation. -/
def applyOp (s : CState) : CfgOp → CState
  | .appChange a => handleAppChange s a
  | .componentChange c => handleComponentChange s c
  | .propsUpdate p => handleConfiguredPropsUpdate s p

/-- Apply a sequence of operations in order. -/
def applyOps (s : CState) : List CfgOp → CState
  | [] => s
  | op :: ops => applyOps (applyOp s op) ops

/-! The earlier action-config revision that scopes configured props to
the external user id (`pipedreamExternalUserId`): the `configuredProps`
state initializer and the user-id-change effect. -/

/-- The stored `pipedreamConfiguredProps` config value in that revision:
a JSON string or an already-parsed object. -/
inductive StoredProps where
  | str : String → StoredProps
  | obj : Jmembers → StoredProps

/-- Embeds the `useState` initializer of `configuredProps`: the restore
is skipped when a stored user id is truthy, the current id is not
`"anonymous"`, and the two differ. Parse failures restore the empty
mapping (the initializer's try/catch); a non-object parse result is
modelled as the empty mapping. -/
def initialConfiguredProps (storedUserId : Option String)
    (storedProps : Option StoredProps) (currentUserId : String) : Jmembers :=
  if present storedUserId = true ∧ currentUserId ≠ "anonymous"
      ∧ storedUserId ≠ some currentUserId then
    .nil
  else
    match storedProps with
    | some (.str s) =>
        if s = "" then .nil
        else
          match jparse s with
          | some (.obj ms) => ms
          | some _ => .nil
          | none => .nil
    | some (.obj ms) => ms
    | none => .nil

/-- Embeds the user-id-change effect of the same revision: when a stored
user id is truthy, the current id is truthy and not `"anonymous"`, and
the two differ, the form props are cleared, the persisted props are
reset and the stored user id is rewritten. Returns the new form props
and config. -/
def userIdChangeEffect (storedExternalUserId : Option String)
    (externalUserId : String) (props : Jmembers)
    (config : List (String × String)) :
    Jmembers × List (String × String) :=
  if present storedExternalUserId = true ∧ externalUserId ≠ ""
      ∧ externalUserId ≠ "anonymous"
      ∧ storedExternalUserId ≠ some externalUserId then
    (.nil,
      setKey (setKey config "pipedreamConfiguredProps"
        (jstringify (.obj .nil)))
        "pipedreamExternalUserId" externalUserId)
  else (props, config)

/-- Keys of a member list are pairwise distinct. -/
def keyNodup : Jmembers → Bool
  | .nil => true
  | .cons k _ rest => !((Jmembers.keys rest).contains k) && keyNodup rest

theorem restDelim_headNotDigit {rest : List Char} (h : restDelim rest) :
    headNotDigit rest := by
  cases rest with
  | nil => trivial
  | cons c cs =>
      rcases h with h | h | h <;> subst h <;> simp only [headNotDigit] <;> decide

theorem natCharsAux_irrel (n : Nat) : ∀ f1 f2, n < f1 → n < f2 →
    natCharsAux f1 n = natCharsAux f2 n := by
  induction n using Nat.strong_induction_on with
  | _ n ih =>
      intro f1 f2 h1 h2
      match f1, f2 with
      | g1 + 1, g2 + 1 =>
          simp only [natCharsAux]
          by_cases h10 : n < 10
          · simp [h10]
          · have hn : 0 < n := by omega
            have hd : n / 10 < n := Nat.div_lt_self hn (by omega)
            simp only [h10, if_false]
            rw [ih (n / 10) hd g1 g2 (by omega) (by omega)]

theorem natChars_lt {n : Nat} (h : n < 10) : natChars n = [digitChar n] := by
  simp [natChars, natCharsAux, h]

theorem natChars_ge {n : Nat} (h : 10 ≤ n) :
    natChars n = natChars (n / 10) ++ [digitChar (n % 10)] := by
  have hd : n / 10 < n := Nat.div_lt_self (by omega) (by omega)
  show natCharsAux (n + 1) n = natChars (n / 10) ++ [digitChar (n % 10)]
  conv_lhs => simp only [natCharsAux]
  rw [if_neg (by omega)]
  rw [natCharsAux_irrel (n / 10) n (n / 10 + 1) (by omega) (by omega)]
  rfl

theorem digitChar_isDigit {n : Nat} (h : n < 10) :
    isDigit (digitChar n) = true := by
  interval_cases n <;> decide

theorem digitVal_digitChar {n : Nat} (h : n < 10) : digitVal (digitChar n) = n := by
  interval_cases n <;> decide

theorem natChars_cons_digit (n : Nat) :
    ∃ c cs, natChars n = c :: cs ∧ isDigit c = true := by
  induction n using Nat.strong_induction_on with
  | _ n ih =>
      by_cases h10 : n < 10
      · exact ⟨digitChar n, [], natChars_lt h10, digitChar_isDigit h10⟩
      · have hd : n / 10 < n := Nat.div_lt_self (by omega) (by omega)
        obtain ⟨c, cs, hc, hdig⟩ := ih (n / 10) hd
        refine ⟨c, cs ++ [digitChar (n % 10)], ?_, hdig⟩
        rw [natChars_ge (by omega), hc]
        simp

theorem parseDigitsAux_stop {rest : List Char} (h : headNotDigit rest) (a : Nat) :
    parseDigitsAux rest a = (a, rest) := by
  cases rest with
  | nil => rfl
  | cons c cs =>
      simp only [headNotDigit] at h
      simp [parseDigitsAux, h]

theorem parseDigitsAux_natChars (n : Nat) : ∀ acc rest,
    parseDigitsAux (natChars n ++ rest) acc
      = parseDigitsAux rest (acc * 10 ^ (natChars n).length + n) := by
  induction n using Nat.strong_induction_on with
  | _ n ih =>
      intro acc rest
      by_cases h10 : n < 10
      · rw [natChars_lt h10]
        simp only [List.cons_append, List.nil_append, parseDigitsAux,
          digitChar_isDigit h10, if_true, digitVal_digitChar h10]
        have h1 : 10 * acc + n = acc * 10 ^ ([digitChar n]).length + n := by
          simp [pow_one]; ring
        rw [h1]
        simp
      · have hd : n / 10 < n := Nat.div_lt_self (by omega) (by omega)
        rw [natChars_ge (by omega), List.append_assoc]
        rw [ih (n / 10) hd acc ([digitChar (n % 10)] ++ rest)]
        have hdig : isDigit (digitChar (n % 10)) = true := digitChar_isDigit (by omega)
        have hval : digitVal (digitChar (n % 10)) = n % 10 := digitVal_digitChar (by omega)
        simp only [List.singleton_append, parseDigitsAux, hdig, if_true, hval]
        have hlen : (natChars n).length = (natChars (n / 10)).length + 1 := by
          rw [natChars_ge (by omega)]; simp
        simp only [List.nil_append, List.length_append, List.length_singleton]
        congr 1
        rw [pow_succ, ← mul_assoc]
        have hmod := Nat.div_add_mod n 10
        generalize acc * 10 ^ (natChars (n / 10)).length = Q
        omega

theorem natChars_value {n : Nat} {rest : List Char} (h : headNotDigit rest) :
    parseDigitsAux (natChars n ++ rest) 0 = (n, rest) := by
  rw [parseDigitsAux_natChars, parseDigitsAux_stop h]
  simp

theorem intChars_head (n : Int) :
    ∃ c cs, intChars n = c :: cs ∧ (c = '-' ∨ isDigit c = true) := by
  by_cases h : n < 0
  · exact ⟨'-', natChars n.natAbs, by simp [intChars, h], Or.inl rfl⟩
  · obtain ⟨c, cs, hc, hd⟩ := natChars_cons_digit n.toNat
    exact ⟨c, cs, by simp [intChars, h, hc], Or.inr hd⟩

theorem parseNum_round {rest : List Char} (h : headNotDigit rest) (n : Int) :
    parseNum (intChars n ++ rest) = some (n, rest) := by
  by_cases hneg : n < 0
  · simp only [intChars, hneg, if_true, List.cons_append]
    obtain ⟨c, cs, hc, hd⟩ := natChars_cons_digit n.natAbs
    rw [hc]
    simp only [parseNum, List.cons_append, if_pos rfl, hd, if_true]
    rw [← List.cons_append, ← hc, natChars_value h]
    have : (-(n.natAbs : Int)) = n := by omega
    rw [this]
  · simp only [intChars, hneg, if_false]
    obtain ⟨c, cs, hc, hd⟩ := natChars_cons_digit n.toNat
    rw [hc]
    have hcm : c ≠ '-' := by
      intro he
      subst he
      simp [isDigit] at hd
    simp only [parseNum, List.cons_append, if_neg hcm, hd, if_true]
    rw [← List.cons_append, ← hc, natChars_value h]
    have : ((n.toNat : Int)) = n := by omega
    rw [this]

theorem stripLit_round (lit rest : List Char) : stripLit lit (lit ++ rest) = some rest := by
  induction lit with
  | nil => rfl
  | cons l ls ih => simp [stripLit, ih]

theorem parseStrBody_quote (rest : List Char) :
    parseStrBody ('"' :: rest) = some ([], rest) := rfl

theorem parseStrBody_esc (e : Char) (rest : List Char) :
    parseStrBody ('\\' :: e :: rest)
      = (match parseStrBody rest with
          | none => none
          | some (s, r) => some (unescChar e :: s, r)) := rfl

theorem parseStrBody_other (c : Char) (rest : List Char)
    (h1 : (c = '"') = False) (h2 : (c = '\\') = False) :
    parseStrBody (c :: rest)
      = (match parseStrBody rest with
          | none => none
          | some (s, r) => some (c :: s, r)) := by
  show parseStrTok false (c :: rest)
      = (match parseStrTok false rest with
          | none => none
          | some (s, r) => some (c :: s, r))
  simp [parseStrTok, h1, h2]

theorem parseStrBody_round (s : List Char) : ∀ rest,
    parseStrBody (escString s ++ ('"' :: rest)) = some (s, rest) := by
  induction s with
  | nil => intro rest; exact parseStrBody_quote rest
  | cons c cs ih =>
      intro rest
      by_cases hq : c = '"' ∨ c = '\\'
      · have he : escChar c = ['\\', c] := by simp [escChar, hq]
        have hu : unescChar c = c := by
          rcases hq with hq | hq <;> subst hq <;> decide
        simp only [escString, he, List.cons_append, List.nil_append]
        rw [parseStrBody_esc, ih rest, hu]
      · push_neg at hq
        have he : escChar c = [c] := by
          simp [escChar, hq.1, hq.2]
        simp only [escString, he, List.cons_append, List.nil_append]
        rw [parseStrBody_other c _ (by simp [hq.1]) (by simp [hq.2]), ih rest]

theorem jsize_pos (v : Jval) : 1 ≤ jsize v := by
  cases v <;> simp [jsize]

theorem jsizeArr_pos (vs : Jarr) : 1 ≤ jsizeArr vs := by
  cases vs <;> simp [jsizeArr] <;> omega

theorem jsizeMembers_pos (ms : Jmembers) : 1 ≤ jsizeMembers ms := by
  cases ms <;> simp [jsizeMembers] <;> omega

theorem parseVal_null (f : Nat) (rest : List Char) :
    parseVal (f + 1) ('n' :: 'u' :: 'l' :: 'l' :: rest) = some (.null, rest) := rfl

theorem parseVal_true (f : Nat) (rest : List Char) :
    parseVal (f + 1) ('t' :: 'r' :: 'u' :: 'e' :: rest) = some (.bool true, rest) := rfl

theorem parseVal_false (f : Nat) (rest : List Char) :
    parseVal (f + 1) ('f' :: 'a' :: 'l' :: 's' :: 'e' :: rest) = some (.bool false, rest) := rfl

theorem parseVal_arrNil (f : Nat) (rest : List Char) :
    parseVal (f + 1) ('[' :: ']' :: rest) = some (.arr .nil, rest) := rfl

theorem parseVal_objNil (f : Nat) (rest : List Char) :
    parseVal (f + 1) ('{' :: '}' :: rest) = some (.obj .nil, rest) := rfl

theorem parseVal_str (f : Nat) (s : List Char) (rest : List Char) :
    parseVal (f + 1) ('"' :: (escString s ++ ('"' :: rest)))
      = some (.str (String.mk s), rest) := by
  show (match parseStrBody (escString s ++ ('"' :: rest)) with
        | some (s2, r) => some (Jval.str (String.mk s2), r)
        | none => none)
      = some (.str (String.mk s), rest)
  rw [parseStrBody_round]

theorem numStart_conds {c : Char} (h : c = '-' ∨ isDigit c = true) :
    (c = 'n') = False ∧ (c = 't') = False ∧ (c = 'f') = False
      ∧ (c = '"') = False ∧ (c = '[') = False ∧ (c = '{') = False := by
  rcases h with h | h
  · subst h; refine ⟨?_, ?_, ?_, ?_, ?_, ?_⟩ <;> decide
  · refine ⟨?_, ?_, ?_, ?_, ?_, ?_⟩ <;>
      · simp only [eq_iff_iff, iff_false]
        intro he
        subst he
        exact absurd h (by decide)

theorem parseVal_num (f : Nat) (n : Int) {rest : List Char} (h : headNotDigit rest) :
    parseVal (f + 1) (intChars n ++ rest) = some (.num n, rest) := by
  obtain ⟨c, cs, hc, hstart⟩ := intChars_head n
  obtain ⟨h1, h2, h3, h4, h5, h6⟩ := numStart_conds hstart
  rw [hc, List.cons_append]
  simp only [parseVal, h1, h2, h3, h4, h5, h6, if_false]
  rw [← List.cons_append, ← hc, parseNum_round h]

theorem parseVal_arrStep (f : Nat) (c : Char) (ctail : List Char)
    (h : (c = ']') = False) :
    parseVal (f + 1) ('[' :: c :: ctail)
      = (match parseArrElems f (c :: ctail) with
          | some (vs, r) => some (.arr vs, r)
          | none => none) := by
  have e1 : (('[' : Char) = 'n') = False := by decide
  have e2 : (('[' : Char) = 't') = False := by decide
  have e3 : (('[' : Char) = 'f') = False := by decide
  have e4 : (('[' : Char) = '"') = False := by decide
  have e5 : (('[' : Char) = '[') = True := by decide
  simp only [parseVal, e1, e2, e3, e4, e5, h, if_false, if_true]

theorem parseVal_objStep (f : Nat) (c : Char) (ctail : List Char)
    (h : (c = '}') = False) :
    parseVal (f + 1) ('{' :: c :: ctail)
      = (match parseObjMembers f (c :: ctail) with
          | some (ms, r) => some (.obj ms, r)
          | none => none) := by
  have e1 : (('{' : Char) = 'n') = False := by decide
  have e2 : (('{' : Char) = 't') = False := by decide
  have e3 : (('{' : Char) = 'f') = False := by decide
  have e4 : (('{' : Char) = '"') = False := by decide
  have e5 : (('{' : Char) = '[') = False := by decide
  have e6 : (('{' : Char) = '{') = True := by decide
  simp only [parseVal, e1, e2, e3, e4, e5, e6, h, if_false, if_true]

theorem parseArrElems_succ (f : Nat) (cs : List Char) :
    parseArrElems (f + 1) cs
      = (match parseVal f cs with
          | none => none
          | some (v, r) =>
              match r with
              | [] => none
              | d :: r2 =>
                  if d = ',' then
                    match parseArrElems f r2 with
                    | some (vs, r3) => some (.cons v vs, r3)
                    | none => none
                  else if d = ']' then some (.cons v .nil, r2)
                  else none) := rfl

theorem parseObjMembers_succ (f : Nat) (cs : List Char) :
    parseObjMembers (f + 1) cs
      = (match cs with
          | [] => none
          | q :: rest =>
              if q = '"' then
                match parseStrBody rest with
                | none => none
                | some (k, r) =>
                    match r with
                    | [] => none
                    | colon :: r2 =>
                        if colon = ':' then
                          match parseVal f r2 with
                          | none => none
                          | some (v, r3) =>
                              match r3 with
                              | [] => none
                              | d :: r4 =>
                                  if d = ',' then
                                    match parseObjMembers f r4 with
                                    | some (ms, r5) => some (.cons (String.mk k) v ms, r5)
                                    | none => none
                                  else if d = '}' then some (.cons (String.mk k) v .nil, r4)
                                  else none
                        else none
              else none) := rfl

theorem stringify_head (v : Jval) :
    ∃ c cs, stringifyVal v = c :: cs ∧ (c = ']') = False ∧ (c = '}') = False := by
  cases v with
  | null => exact ⟨'n', _, rfl, by decide, by decide⟩
  | bool b =>
      cases b with
      | false => exact ⟨'f', _, rfl, by decide, by decide⟩
      | true => exact ⟨'t', _, rfl, by decide, by decide⟩
  | num n =>
      obtain ⟨c, cs, hc, hstart⟩ := intChars_head n
      refine ⟨c, cs, by simp [stringifyVal, hc], ?_, ?_⟩ <;>
        · simp only [eq_iff_iff, iff_false]
          intro he
          subst he
          rcases hstart with h | h
          · simp at h
          · exact absurd h (by decide)
  | str s => exact ⟨'"', _, rfl, by decide, by decide⟩
  | arr vs =>
      cases vs with
      | nil => exact ⟨'[', _, rfl, by decide, by decide⟩
      | cons v vs => exact ⟨'[', _, rfl, by decide, by decide⟩
  | obj ms =>
      cases ms with
      | nil => exact ⟨'{', _, rfl, by decide, by decide⟩
      | cons k v ms => exact ⟨'{', _, rfl, by decide, by decide⟩

theorem restDelim_arrSeq (vs : Jarr) (rest : List Char) :
    restDelim (stringifyArrSeq vs ++ (']' :: rest)) := by
  cases vs with
  | nil => simp [stringifyArrSeq, restDelim]
  | cons v vs => simp [stringifyArrSeq, restDelim]

theorem restDelim_objSeq (ms : Jmembers) (rest : List Char) :
    restDelim (stringifyObjSeq ms ++ ('}' :: rest)) := by
  cases ms with
  | nil => simp [stringifyObjSeq, restDelim]
  | cons k v ms => simp [stringifyObjSeq, restDelim]

theorem parse_round (fuel : Nat) :
    (∀ v rest, jsize v ≤ fuel → restDelim rest →
        parseVal fuel (stringifyVal v ++ rest) = some (v, rest))
    ∧ (∀ v vs rest, 1 + jsize v + jsizeArr vs ≤ fuel → restDelim rest →
        parseArrElems fuel (stringifyVal v ++ (stringifyArrSeq vs ++ (']' :: rest)))
          = some (.cons v vs, rest))
    ∧ (∀ k v ms rest, 1 + jsize v + jsizeMembers ms ≤ fuel → restDelim rest →
        parseObjMembers fuel ('"' :: (escString k.data ++ ('"' :: ':' :: (stringifyVal v
          ++ (stringifyObjSeq ms ++ ('}' :: rest))))))
          = some (.cons k v ms, rest)) := by
  induction fuel with
  | zero =>
      refine ⟨?_, ?_, ?_⟩
      · intro v rest hs _
        have := jsize_pos v
        omega
      · intro v vs rest hs _
        omega
      · intro k v ms rest hs _
        omega
  | succ f ih =>
      obtain ⟨ihA, ihB, ihC⟩ := ih
      refine ⟨?_, ?_, ?_⟩
      · intro v rest hs hd
        cases v with
        | null =>
            simp only [stringifyVal, List.cons_append, List.nil_append]
            exact parseVal_null f rest
        | bool b =>
            cases b with
            | true =>
                simp only [stringifyVal, List.cons_append, List.nil_append]
                exact parseVal_true f rest
            | false =>
                simp only [stringifyVal, List.cons_append, List.nil_append]
                exact parseVal_false f rest
        | num n =>
            simp only [stringifyVal]
            exact parseVal_num f n (restDelim_headNotDigit hd)
        | str s =>
            simp only [stringifyVal, List.cons_append, List.append_assoc,
              List.singleton_append, List.nil_append]
            rw [parseVal_str f s.data rest]
        | arr vs =>
            cases vs with
            | nil =>
                simp only [stringifyVal, List.cons_append, List.nil_append]
                exact parseVal_arrNil f rest
            | cons v vs =>
                simp only [stringifyVal, List.cons_append, List.append_assoc,
                  List.singleton_append, List.nil_append]
                obtain ⟨c, cs, hc, hcr, _⟩ := stringify_head v
                rw [hc, List.cons_append]
                rw [parseVal_arrStep f c _ hcr]
                rw [← List.cons_append, ← hc]
                have hsz : 1 + jsize v + jsizeArr vs ≤ f := by
                  simp only [jsize, jsizeArr] at hs
                  omega
                rw [ihB v vs rest hsz hd]
        | obj ms =>
            cases ms with
            | nil =>
                simp only [stringifyVal, List.cons_append, List.nil_append]
                exact parseVal_objNil f rest
            | cons k v ms =>
                simp only [stringifyVal, List.cons_append, List.append_assoc,
                  List.singleton_append, List.nil_append]
                rw [parseVal_objStep f '"' _ (by decide)]
                have hsz : 1 + jsize v + jsizeMembers ms ≤ f := by
                  simp only [jsize, jsizeMembers] at hs
                  omega
                rw [ihC k v ms rest hsz hd]
      · intro v vs rest hsz hd
        have hv : jsize v ≤ f := by
          have := jsizeArr_pos vs
          omega
        cases vs with
        | nil =>
            simp only [stringifyArrSeq, List.nil_append]
            rw [parseArrElems_succ]
            rw [ihA v (']' :: rest) hv (by simp [restDelim])]
            have e1 : ((']' : Char) = ',') = False := by decide
            have e2 : ((']' : Char) = ']') = True := by decide
            simp only [e1, e2, if_false, if_true]
        | cons w ws =>
            simp only [stringifyArrSeq, List.cons_append, List.append_assoc]
            rw [parseArrElems_succ]
            rw [ihA v _ hv (by simp [restDelim])]
            have e1 : ((',' : Char) = ',') = True := by decide
            simp only [e1, if_true]
            have hw : 1 + jsize w + jsizeArr ws ≤ f := by
              simp only [jsizeArr] at hsz
              have := jsize_pos v
              omega
            rw [ihB w ws rest hw hd]
      · intro k v ms rest hsz hd
        have hv : jsize v ≤ f := by
          have := jsizeMembers_pos ms
          omega
        cases ms with
        | nil =>
            simp only [stringifyObjSeq, List.nil_append]
            rw [parseObjMembers_succ]
            have e1 : (('"' : Char) = '"') = True := by decide
            simp only [e1, if_true]
            rw [parseStrBody_round k.data]
            have e2 : ((':' : Char) = ':') = True := by decide
            simp only [e2, if_true]
            rw [ihA v ('}' :: rest) hv (by simp [restDelim])]
            have e3 : (('}' : Char) = ',') = False := by decide
            have e4 : (('}' : Char) = '}') = True := by decide
            simp only [e3, e4, if_false, if_true]
        | cons k2 v2 ms2 =>
            simp only [stringifyObjSeq, List.cons_append, List.append_assoc]
            rw [parseObjMembers_succ]
            have e1 : (('"' : Char) = '"') = True := by decide
            simp only [e1, if_true]
            rw [parseStrBody_round k.data]
            have e2 : ((':' : Char) = ':') = True := by decide
            simp only [e2, if_true]
            rw [ihA v _ hv (by simp [restDelim])]
            have e3 : ((',' : Char) = ',') = True := by decide
            simp only [e3, if_true]
            have hw : 1 + jsize v2 + jsizeMembers ms2 ≤ f := by
              simp only [jsizeMembers] at hsz
              have := jsize_pos v
              omega
            rw [ihC k2 v2 ms2 rest hw hd]

theorem natChars_length_pos (n : Nat) : 1 ≤ (natChars n).length := by
  obtain ⟨c, cs, hc, _⟩ := natChars_cons_digit n
  rw [hc]
  simp

theorem intChars_length_pos (n : Int) : 1 ≤ (intChars n).length := by
  obtain ⟨c, cs, hc, _⟩ := intChars_head n
  rw [hc]
  simp

mutual

theorem jsize_le_stringify (v : Jval) : jsize v ≤ 2 * (stringifyVal v).length := by
  cases v with
  | null => simp [jsize, stringifyVal]
  | bool b => cases b <;> simp [jsize, stringifyVal]
  | num n =>
      have := intChars_length_pos n
      simp only [jsize, stringifyVal]
      omega
  | str s =>
      simp [jsize, stringifyVal]
      omega
  | arr vs =>
      cases vs with
      | nil => simp [jsize, jsizeArr, stringifyVal]
      | cons v vs =>
          have h1 := jsize_le_stringify v
          have h2 := jsizeArr_le_seq vs
          simp only [jsize, jsizeArr, stringifyVal, List.length_cons,
            List.length_append, List.length_singleton]
          omega
  | obj ms =>
      cases ms with
      | nil => simp [jsize, jsizeMembers, stringifyVal]
      | cons k v ms =>
          have h1 := jsize_le_stringify v
          have h2 := jsizeMembers_le_seq ms
          simp only [jsize, jsizeMembers, stringifyVal, List.length_cons,
            List.length_append, List.length_singleton]
          omega

theorem jsizeArr_le_seq (vs : Jarr) : jsizeArr vs ≤ 2 * (stringifyArrSeq vs).length + 1 := by
  cases vs with
  | nil => simp [jsizeArr, stringifyArrSeq]
  | cons v vs =>
      have h1 := jsize_le_stringify v
      have h2 := jsizeArr_le_seq vs
      simp only [jsizeArr, stringifyArrSeq, List.length_cons, List.length_append]
      omega

theorem jsizeMembers_le_seq (ms : Jmembers) :
    jsizeMembers ms ≤ 2 * (stringifyObjSeq ms).length + 1 := by
  cases ms with
  | nil => simp [jsizeMembers, stringifyObjSeq]
  | cons k v ms =>
      have h1 := jsize_le_stringify v
      have h2 := jsizeMembers_le_seq ms
      simp only [jsizeMembers, stringifyObjSeq, List.length_cons, List.length_append]
      omega

end

/-- The platform JSON round trip: parsing a serialized value gives back
exactly that value. -/
theorem jparse_jstringify (v : Jval) : jparse (jstringify v) = some v := by
  show (match parseVal (2 * (stringifyVal v).length + 2) (stringifyVal v) with
        | some (w, []) => some w
        | _ => none) = some v
  have hfuel : jsize v ≤ 2 * (stringifyVal v).length + 2 := by
    have := jsize_le_stringify v
    omega
  have h := (parse_round (2 * (stringifyVal v).length + 2)).1 v [] hfuel trivial
  rw [List.append_nil] at h
  rw [h]

theorem lookupS_setKey_same (m : List (String × String)) (k v : String) :
    lookupS (setKey m k v) k = some v := by
  simp [setKey, lookupS]

theorem lookupS_removeKey_ne (m : List (String × String)) (k k2 : String)
    (h : k2 ≠ k) :
    lookupS (removeKey m k) k2 = lookupS m k2 := by
  induction m with
  | nil => rfl
  | cons p rest ih =>
      by_cases hp : p.1 = k
      · have hne : p.1 = k2 → False := fun he => h (hp ▸ he ▸ rfl)
        simp only [removeKey, if_pos hp, ih]
        cases p with
        | mk a b =>
            simp only [lookupS]
            rw [if_neg (fun he => hne he)]
      · cases p with
        | mk a b =>
            simp only [removeKey, if_neg hp, lookupS, ih]

theorem lookupS_setKey_other (m : List (String × String)) (k v k2 : String)
    (h : k2 ≠ k) :
    lookupS (setKey m k v) k2 = lookupS m k2 := by
  simp only [setKey, lookupS]
  rw [if_neg (fun he => h he.symm)]
  exact lookupS_removeKey_ne m k k2 h

theorem mem_addKey (acc : List String) (k x : String) :
    x ∈ addKey acc k ↔ x ∈ acc ∨ x = k := by
  by_cases h : k ∈ acc
  · simp only [addKey, if_pos h]
    constructor
    · exact Or.inl
    · rintro (hx | hx)
      · exact hx
      · rw [hx]; exact h
  · simp [addKey, if_neg h]

theorem mem_addKeys (ks : List String) : ∀ acc x,
    x ∈ addKeys acc ks ↔ x ∈ acc ∨ x ∈ ks := by
  induction ks with
  | nil => intro acc x; simp [addKeys]
  | cons k ks ih =>
      intro acc x
      simp only [addKeys]
      rw [ih (addKey acc k) x, mem_addKey]
      simp only [List.mem_cons]
      tauto

theorem addKeys_absorb (ks : List String) : ∀ acc, (∀ x ∈ ks, x ∈ acc) →
    addKeys acc ks = acc := by
  induction ks with
  | nil => intro acc _; rfl
  | cons k ks ih =>
      intro acc h
      have hk : k ∈ acc := h k (by simp)
      simp only [addKeys, addKey, if_pos hk]
      exact ih acc (fun x hx => h x (by simp [hx]))

theorem addKeys_extends (ks : List String) : ∀ acc,
    ∃ extra, addKeys acc ks = acc ++ extra ∧ ∀ x ∈ extra, x ∉ acc := by
  induction ks with
  | nil => intro acc; exact ⟨[], by simp [addKeys], by simp⟩
  | cons k ks ih =>
      intro acc
      by_cases hk : k ∈ acc
      · obtain ⟨extra, he, hn⟩ := ih acc
        exact ⟨extra, by simp only [addKeys, addKey, if_pos hk]; exact he, hn⟩
      · obtain ⟨extra, he, hn⟩ := ih (acc ++ [k])
        refine ⟨k :: extra, ?_, ?_⟩
        · simp only [addKeys, addKey, if_neg hk]
          rw [he]
          simp
        · intro x hx
          rcases List.mem_cons.mp hx with hx | hx
          · rw [hx]; exact hk
          · intro hacc
            exact hn x hx (by simp [hacc])

theorem addKeys_of_nodup (ks : List String) : ∀ acc, ks.Nodup →
    (∀ x ∈ ks, x ∉ acc) → addKeys acc ks = acc ++ ks := by
  induction ks with
  | nil => intro acc _ _; simp [addKeys]
  | cons k ks ih =>
      intro acc hnd hdisj
      have hk : k ∉ acc := hdisj k (by simp)
      simp only [addKeys, addKey, if_neg hk]
      rw [ih (acc ++ [k]) (List.nodup_cons.mp hnd).2]
      · simp
      · intro x hx
        simp only [List.mem_append, List.mem_singleton]
        rintro (hx2 | hx2)
        · exact hdisj x (by simp [hx]) hx2
        · rw [hx2] at hx
          exact (List.nodup_cons.mp hnd).1 hx

theorem jsonClone_id (ms : Jmembers) : jsonClone ms = ms := by
  simp [jsonClone, jparse_jstringify (Jval.obj ms)]

theorem ofPlain_keysEnum (ms : Jmembers) :
    (PropsObj.ofPlain ms).keysEnum = .ok (dedupKeys ms) := rfl

theorem ofPlain_keysOwn (ms : Jmembers) :
    (PropsObj.ofPlain ms).keysOwn = .ok (dedupKeys ms) := rfl

theorem ofPlain_keysReflect (ms : Jmembers) :
    (PropsObj.ofPlain ms).keysReflect = .ok (dedupKeys ms) := rfl

theorem ofPlain_getProp (ms : Jmembers) (k : String) :
    (PropsObj.ofPlain ms).getProp k = .ok (ms.valueOf k) := rfl

theorem valueOf_none_of_not_mem (ms : Jmembers) (k : String)
    (h : k ∉ ms.keys) : ms.valueOf k = none := by
  cases ms with
  | nil => rfl
  | cons k2 v rest =>
      simp only [Jmembers.keys, List.mem_cons] at h
      push_neg at h
      simp only [Jmembers.valueOf]
      rw [if_neg (fun he => h.1 (by rw [he]))]
      exact valueOf_none_of_not_mem rest k h.2

theorem mem_dedupKeys (ms : Jmembers) (x : String) :
    x ∈ dedupKeys ms ↔ x ∈ ms.keys := by
  simp [dedupKeys, mem_addKeys]

theorem keyNodup_cons {k : String} {v : Jval} {rest : Jmembers}
    (h : keyNodup (.cons k v rest) = true) :
    k ∉ rest.keys ∧ keyNodup rest = true := by
  simp only [keyNodup, Bool.and_eq_true, Bool.not_eq_true'] at h
  refine ⟨?_, h.2⟩
  intro hmem
  have hc := h.1
  simp at hc
  exact hc hmem

theorem keys_nodup_of_keyNodup (ms : Jmembers) (h : keyNodup ms = true) :
    ms.keys.Nodup := by
  cases ms with
  | nil => simp [Jmembers.keys]
  | cons k v rest =>
      obtain ⟨h1, h2⟩ := keyNodup_cons h
      simp only [Jmembers.keys, List.nodup_cons]
      exact ⟨h1, keys_nodup_of_keyNodup rest h2⟩

theorem dedupKeys_of_keyNodup (ms : Jmembers) (h : keyNodup ms = true) :
    dedupKeys ms = ms.keys := by
  have := addKeys_of_nodup ms.keys [] (keys_nodup_of_keyNodup ms h) (by simp)
  simpa [dedupKeys] using this

theorem pullValues_append (props : PropsObj) (ks1 ks2 : List String) :
    pullValues props (ks1 ++ ks2)
      = (pullValues props ks1).append (pullValues props ks2) := by
  induction ks1 with
  | nil => simp [pullValues, Jmembers.append]
  | cons k ks ih =>
      simp only [List.cons_append, pullValues]
      cases props.getProp k with
      | error e => exact ih
      | ok o =>
          cases o with
          | none => exact ih
          | some v => simp [Jmembers.append, ih]

theorem pullValues_agree (ks : List String) (p1 p2 : PropsObj)
    (h : ∀ k ∈ ks, p1.getProp k = p2.getProp k) :
    pullValues p1 ks = pullValues p2 ks := by
  induction ks with
  | nil => rfl
  | cons k ks ih =>
      simp only [pullValues]
      rw [h k (by simp)]
      have ih2 := ih (fun k2 hk2 => h k2 (by simp [hk2]))
      cases p2.getProp k with
      | error e => exact ih2
      | ok o =>
          cases o with
          | none => exact ih2
          | some v => rw [ih2]

theorem pullValues_ofPlain_keys (ms : Jmembers) (h : keyNodup ms = true) :
    pullValues (PropsObj.ofPlain ms) ms.keys = ms := by
  cases ms with
  | nil => rfl
  | cons k v rest =>
      obtain ⟨h1, h2⟩ := keyNodup_cons h
      have hv : (PropsObj.ofPlain (Jmembers.cons k v rest)).getProp k
          = .ok (some v) := by
        simp [ofPlain_getProp, Jmembers.valueOf]
      show pullValues _ (k :: rest.keys) = _
      simp only [pullValues, hv]
      have hagree :
          pullValues (PropsObj.ofPlain (Jmembers.cons k v rest)) rest.keys
            = pullValues (PropsObj.ofPlain rest) rest.keys := by
        apply pullValues_agree
        intro k2 hk2
        have hne : ¬k = k2 := fun he => h1 (he ▸ hk2)
        simp [ofPlain_getProp, Jmembers.valueOf, hne]
      rw [hagree, pullValues_ofPlain_keys rest h2]

theorem pullValues_ofPlain_extra (ms : Jmembers) (extra : List String)
    (h : ∀ x ∈ extra, x ∉ ms.keys) :
    pullValues (PropsObj.ofPlain ms) extra = .nil := by
  induction extra with
  | nil => rfl
  | cons x rest ih =>
      simp only [pullValues, ofPlain_getProp]
      rw [valueOf_none_of_not_mem ms x (h x (by simp))]
      exact ih (fun y hy => h y (by simp [hy]))

theorem append_nil_members (ms : Jmembers) : ms.append .nil = ms := by
  cases ms with
  | nil => rfl
  | cons k v rest => simp [Jmembers.append, append_nil_members rest]

theorem serializeProps_ofPlain (ms : Jmembers) (names : List String)
    (h : keyNodup ms = true) :
    serializeProps (PropsObj.ofPlain ms) names = .ok ms := by
  have hkeys : dedupKeys ms = ms.keys := dedupKeys_of_keyNodup ms h
  have hnodup : ms.keys.Nodup := keys_nodup_of_keyNodup ms h
  simp only [serializeProps, collectPropKeys, ofPlain_keysEnum,
    ofPlain_keysOwn, ofPlain_keysReflect]
  have h1 : addKeys [] (dedupKeys ms) = ms.keys := by
    rw [hkeys]
    simpa using addKeys_of_nodup ms.keys [] hnodup (by simp)
  have h2 : addKeys ms.keys (dedupKeys ms) = ms.keys := by
    rw [hkeys]
    exact addKeys_absorb ms.keys ms.keys (fun x hx => hx)
  rw [h1, h2]
  obtain ⟨extra, he, hn⟩ := addKeys_extends names ms.keys
  have h3 : addKeys (addKeys ms.keys names) (dedupKeys ms)
      = ms.keys ++ extra := by
    rw [he, hkeys]
    refine addKeys_absorb _ _ ?_
    intro x hx
    simp [hx]
  rw [h3]
  rw [pullValues_append, pullValues_ofPlain_keys ms h,
    pullValues_ofPlain_extra ms extra (fun x hx => hn x hx),
    append_nil_members, jsonClone_id]

theorem serializePropsPlain_eq (ms : Jmembers) (names : List String)
    (h : keyNodup ms = true) : serializePropsPlain ms names = ms := by
  simp [serializePropsPlain, serializeProps_ofPlain ms names h]

theorem clientAvailable_eq (env : PdEnv) :
    clientAvailable env = pdCredsPresent env := by
  rcases env with ⟨ci, cs, pi, pe, ao⟩
  cases ci with
  | none =>
      simp [clientAvailable, isPipedreamConfigured, jsAndStr, JsStr.truthy,
        ofEnvVar, pdCredsPresent, present]
  | some a =>
      cases cs with
      | none =>
          by_cases ha : a = "" <;>
            simp [clientAvailable, isPipedreamConfigured, jsAndStr,
              JsStr.truthy, ofEnvVar, pdCredsPresent, present, ha]
      | some b =>
          cases pi with
          | none =>
              by_cases ha : a = "" <;> by_cases hb : b = "" <;>
                simp [clientAvailable, isPipedreamConfigured, jsAndStr,
                  JsStr.truthy, ofEnvVar, pdCredsPresent, present, ha, hb]
          | some c =>
              by_cases ha : a = "" <;> by_cases hb : b = "" <;>
                by_cases hc : c = "" <;>
                simp [clientAvailable, isPipedreamConfigured, jsAndStr,
                  JsStr.truthy, ofEnvVar, pdCredsPresent, present, ha, hb, hc]

theorem enabledFlag_statusRouteBody (env : PdEnv) :
    enabledFlag (statusRouteBody env) = pdCredsPresent env := by
  rcases env with ⟨ci, cs, pi, pe, ao⟩
  cases ci with
  | none =>
      simp [enabledFlag, statusRouteBody, isPipedreamEnabled,
        isPipedreamConfigured, jsAndStr, JsStr.truthy, ofEnvVar,
        pdCredsPresent, present, Jmembers.valueOf, jvalTruthy]
  | some a =>
      cases cs with
      | none =>
          by_cases ha : a = "" <;>
            simp [enabledFlag, statusRouteBody, isPipedreamEnabled,
              isPipedreamConfigured, jsAndStr, JsStr.truthy, ofEnvVar,
              pdCredsPresent, present, Jmembers.valueOf, jvalTruthy, ha]
      | some b =>
          cases pi with
          | none =>
              by_cases ha : a = "" <;> by_cases hb : b = "" <;>
                simp [enabledFlag, statusRouteBody, isPipedreamEnabled,
                  isPipedreamConfigured, jsAndStr, JsStr.truthy, ofEnvVar,
                  pdCredsPresent, present, Jmembers.valueOf, jvalTruthy, ha, hb]
          | some c =>
              by_cases ha : a = "" <;> by_cases hb : b = "" <;>
                by_cases hc : c = "" <;>
                simp [enabledFlag, statusRouteBody, isPipedreamEnabled,
                  isPipedreamConfigured, jsAndStr, JsStr.truthy, ofEnvVar,
                  pdCredsPresent, present, Jmembers.valueOf, jvalTruthy,
                  ha, hb, hc]

theorem dedupKeys_len_pos (ms : Jmembers) (h : ms ≠ .nil) :
    (dedupKeys ms).length ≠ 0 := by
  cases ms with
  | nil => exact absurd rfl h
  | cons k v rest =>
      have hk : k ∈ dedupKeys (Jmembers.cons k v rest) := by
        rw [mem_dedupKeys]
        simp [Jmembers.keys]
      have := List.length_pos_of_mem hk
      omega

theorem persist_config_frame (s : CState) (p : Jmembers) (k : String)
    (h1 : k ≠ "pipedreamConfiguredProps")
    (h2 : k ≠ "pipedreamExternalUserId")
    (h3 : k ≠ "pipedreamComponentKey") :
    lookupS (persistConfiguredProps s p).config k = lookupS s.config k := by
  cases hsel : s.selectedComponent with
  | none => simp [persistConfiguredProps, hsel]
  | some comp =>
      simp only [persistConfiguredProps, hsel]
      split_ifs <;>
        simp [lookupS_setKey_other, h1, h2, h3]

theorem persist_writes_props (s : CState) (p : Jmembers) (comp : Component4)
    (hsel : s.selectedComponent = some comp) (hkey : comp.key ≠ "")
    (hempty : ¬(s.lastSavedPropsJson ≠ "" ∧ s.lastSavedPropsJson ≠ "\x7b\x7d"
      ∧ (dedupKeys p).length = 0))
    (hfresh : jstringify (Jval.obj (serializePropsPlain p (serializedPropNames s)))
      ≠ s.lastSavedPropsJson) :
    lookupS (persistConfiguredProps s p).config "pipedreamConfiguredProps"
      = some (jstringify (Jval.obj (serializePropsPlain p (serializedPropNames s)))) := by
  simp only [persistConfiguredProps, hsel]
  rw [if_neg hkey, if_neg hempty, if_pos hfresh]
  split_ifs <;>
    simp [lookupS_setKey_same, lookupS_setKey_other]

theorem pullValues_holds_getProp (props : PropsObj) (ks : List String)
    (k : String) (v : Jval) (h : (pullValues props ks).holds k v) :
    props.getProp k = .ok (some v) := by
  induction ks with
  | nil => exact absurd h (by simp [pullValues, Jmembers.holds])
  | cons name rest ih =>
      simp only [pullValues] at h
      cases hg : props.getProp name with
      | error e =>
          rw [hg] at h
          exact ih h
      | ok o =>
          cases o with
          | none =>
              rw [hg] at h
              exact ih h
          | some v2 =>
              rw [hg] at h
              simp only [Jmembers.holds] at h
              rcases h with ⟨hk, hv⟩ | h
              · rw [hk, hv] at hg
                exact hg
              · exact ih h

theorem getProp_holds_pullValues (props : PropsObj) (ks : List String)
    (k : String) (v : Jval) (hmem : k ∈ ks)
    (hget : props.getProp k = .ok (some v)) :
    (pullValues props ks).holds k v := by
  induction ks with
  | nil => exact absurd hmem (by simp)
  | cons name rest ih =>
      simp only [pullValues]
      rcases List.mem_cons.mp hmem with he | hmem2
      · rw [← he, hget]
        simp [Jmembers.holds]
      · cases hg : props.getProp name with
        | error e => exact ih hmem2
        | ok o =>
            cases o with
            | none => exact ih hmem2
            | some v2 =>
                simp only [Jmembers.holds]
                exact Or.inr (ih hmem2)

/-- C2: the execution-time step does not uphold its never-raise contract.
Evaluating `pipedreamActionStep` at a component key with a parameter
mapping given as the invalid JSON string "not json" (and a succeeding
vendor oracle) neither produces a result value nor reaches the vendor
call: the `JSON.parse` sits outside the try/catch in the source, so the
parse exception (`.error`) escapes the step boundary and the call trace
stays empty. -/
theorem c2_invalid_json_escapes_step :
    pipedreamActionStep none
      ⟨some "slack-send-message-to-channel", PropsValue.str "not json", some "u1"⟩
      (fun _ => Except.ok Jval.null)
      = (Except.error "SyntaxError: Unexpected token in JSON", []) := rfl

/-- C3: for every input whose component key is missing or empty, the step
returns the fixed failure result and performs no vendor call (the
`runPipedreamAction` trace is empty), for every environment fallback,
parameter value, user id and vendor behavior. -/
theorem c3_no_component_key (envU : Option String) (key : Option String)
    (props : PropsValue) (uid : Option String)
    (vendorRun : RunCall → Except String Jval)
    (h : key = none ∨ key = some "") :
    pipedreamActionStep envU ⟨key, props, uid⟩ vendorRun
      = (Except.ok (StepResult.failure "No Pipedream component key specified"), []) := by
  have hf : strFalsy key = true := by
    rcases h with h | h <;> simp [h, strFalsy]
  simp [pipedreamActionStep, hf]

/-- Witness for C3 at a concrete input with a missing key. -/
theorem c3_no_component_key_witness :
    ((none : Option String) = none ∨ (none : Option String) = some "")
    ∧ pipedreamActionStep none ⟨none, PropsValue.missing, none⟩
        (fun _ => Except.ok Jval.null)
      = (Except.ok (StepResult.failure "No Pipedream component key specified"), []) :=
  ⟨Or.inl rfl, c3_no_component_key none none PropsValue.missing none
    (fun _ => Except.ok Jval.null) (Or.inl rfl)⟩

/-- C4: when any of the three required credential environment variables
is absent or empty, `serverConnectTokenCreate` and `runPipedreamAction`
each throw their descriptive "not configured" error before any vendor
call (the call trace is empty; these functions mutate no other state),
for every vendor oracle and every argument. -/
theorem c4_unconfigured_throws (env : PdEnv)
    (tokens : String → Jval → Except String TokenResponse)
    (actions : String → String → Jval → Except String Jval)
    (uid key : String) (props : Jval)
    (h : pdCredsPresent env = false) :
    serverConnectTokenCreate env tokens uid
      = (Except.error tokenCreateNotConfiguredMsg, [])
    ∧ runPipedreamAction env actions uid key props
      = (Except.error runActionNotConfiguredMsg, [])
    ∧ (∃ pre post, pre ++ "not configured" ++ post = tokenCreateNotConfiguredMsg)
    ∧ (∃ pre post, pre ++ "not configured" ++ post = runActionNotConfiguredMsg) := by
  have hc : clientAvailable env = false := by
    rw [clientAvailable_eq]
    exact h
  refine ⟨?_, ?_, ?_, ?_⟩
  · simp [serverConnectTokenCreate, hc]
  · simp [runPipedreamAction, hc]
  · exact ⟨"Pipedream is ",
      ". Please add PIPEDREAM_CLIENT_ID, PIPEDREAM_CLIENT_SECRET, and PIPEDREAM_PROJECT_ID environment variables.",
      rfl⟩
  · exact ⟨"Pipedream is ", ".", rfl⟩

/-- Witness for C4 at a concrete environment missing the client id. -/
theorem c4_unconfigured_throws_witness :
    pdCredsPresent ⟨none, some "sec", some "proj", none, none⟩ = false
    ∧ (serverConnectTokenCreate ⟨none, some "sec", some "proj", none, none⟩
        (fun _ _ => Except.ok ⟨"t", "e", "u"⟩) "u1"
        = (Except.error tokenCreateNotConfiguredMsg, [])
      ∧ runPipedreamAction ⟨none, some "sec", some "proj", none, none⟩
          (fun _ _ _ => Except.ok Jval.null) "u1" "slack-send" Jval.null
        = (Except.error runActionNotConfiguredMsg, [])
      ∧ (∃ pre post, pre ++ "not configured" ++ post = tokenCreateNotConfiguredMsg)
      ∧ (∃ pre post, pre ++ "not configured" ++ post = runActionNotConfiguredMsg)) :=
  ⟨rfl, c4_unconfigured_throws ⟨none, some "sec", some "proj", none, none⟩
    (fun _ _ => Except.ok ⟨"t", "e", "u"⟩) (fun _ _ _ => Except.ok Jval.null)
    "u1" "slack-send" Jval.null rfl⟩

/-- C5 counterexample: with all three credentials configured, the status
route body carries the project-id string under "enabled", which is not a
boolean value; the claim that the endpoint returns a boolean "enabled"
field is false at this input. -/
theorem c5_enabled_not_boolean :
    statusRouteBody ⟨some "cid", some "secret", some "proj_123", none, none⟩
      = .cons "enabled" (Jval.str "proj_123") .nil
    ∧ (Jval.str "proj_123").isBool = false := ⟨rfl, rfl⟩

/-- C5 (amended): the status endpoint's "enabled" field is the value of
the JavaScript truthy chain, not a boolean: it is the project-id string
when all three credentials are present and non-empty, and absent or the
empty string otherwise. Read with JavaScript truthiness (absent and ""
falsy), it is truthy exactly when all three required credential
environment variables are present and non-empty. -/
theorem c5_enabled_truthy_iff_configured (env : PdEnv) :
    enabledFlag (statusRouteBody env) = pdCredsPresent env :=
  enabledFlag_statusRouteBody env

/-- C1 counterexample: with the stored external-user identifier "alice"
present and different from the current identifier (the "anonymous"
fallback), the user-scoped revision restores the stored configured props
into the form state instead of discarding them, and the user-id-change
effect leaves both the form props and the persisted config untouched;
the claim as stated (discard whenever present-and-different) is false at
this input. -/
theorem c1_anonymous_restores_props :
    initialConfiguredProps (some "alice")
      (some (.str (jstringify (Jval.obj (.cons "x" (Jval.num 1) .nil)))))
      "anonymous" = .cons "x" (Jval.num 1) .nil
    ∧ userIdChangeEffect (some "alice") "anonymous"
        (.cons "x" (Jval.num 1) .nil) []
      = (.cons "x" (Jval.num 1) .nil, []) := ⟨rfl, rfl⟩

/-- C1 (amended): configured props are discarded on a user-identity
mismatch provided the current identifier is truthy and is not the
"anonymous" fallback: the state initializer then returns the empty
mapping instead of the stored props, and the user-id-change effect
clears the form state, resets the persisted pipedreamConfiguredProps to
the serialized empty mapping, and rewrites the stored identifier to the
current one. -/
theorem c1_user_identity_scoping (storedUserId : Option String)
    (u cur : String) (storedProps : Option StoredProps) (props : Jmembers)
    (config : List (String × String))
    (hstored : storedUserId = some u) (hu : u ≠ "")
    (hcur : cur ≠ "") (hanon : cur ≠ "anonymous") (hdiff : u ≠ cur) :
    initialConfiguredProps storedUserId storedProps cur = .nil
    ∧ (userIdChangeEffect storedUserId cur props config).1 = .nil
    ∧ lookupS (userIdChangeEffect storedUserId cur props config).2
        "pipedreamConfiguredProps" = some (jstringify (Jval.obj .nil))
    ∧ lookupS (userIdChangeEffect storedUserId cur props config).2
        "pipedreamExternalUserId" = some cur := by
  subst hstored
  have hp : present (some u) = true := by simp [present, hu]
  have hne : some u ≠ some cur := by simp [hdiff]
  have hcond := And.intro hp (And.intro hcur (And.intro hanon hne))
  refine ⟨?_, ?_, ?_, ?_⟩
  · simp only [initialConfiguredProps]
    rw [if_pos ⟨hp, hanon, hne⟩]
  · simp only [userIdChangeEffect]
    rw [if_pos hcond]
  · simp only [userIdChangeEffect]
    rw [if_pos hcond]
    rw [lookupS_setKey_other _ _ _ _ (by decide), lookupS_setKey_same]
  · simp only [userIdChangeEffect]
    rw [if_pos hcond]
    rw [lookupS_setKey_same]

/-- Witness for C1 (amended) at concrete identifiers "alice" and "bob". -/
theorem c1_user_identity_scoping_witness :
    initialConfiguredProps (some "alice")
      (some (.str (jstringify (Jval.obj (.cons "x" (Jval.num 1) .nil))))) "bob"
      = .nil
    ∧ (userIdChangeEffect (some "alice") "bob" (.cons "x" (Jval.num 1) .nil) []).1
      = .nil
    ∧ lookupS (userIdChangeEffect (some "alice") "bob"
        (.cons "x" (Jval.num 1) .nil) []).2 "pipedreamConfiguredProps"
      = some (jstringify (Jval.obj .nil))
    ∧ lookupS (userIdChangeEffect (some "alice") "bob"
        (.cons "x" (Jval.num 1) .nil) []).2 "pipedreamExternalUserId"
      = some "bob" :=
  c1_user_identity_scoping (some "alice") "alice" "bob"
    (some (.str (jstringify (Jval.obj (.cons "x" (Jval.num 1) .nil)))))
    (.cons "x" (Jval.num 1) .nil) [] rfl (by decide) (by decide) (by decide)
    (by decide)

/-- C6 counterexample: two operation sequences through the config
component after which JSON-parsing the persisted props does not yield
the mapping most recently set by the user. First, after setting one
parameter and then clearing all parameters, the persisted value still
holds the previous serialization (the empty-payload guard in
`persistConfiguredProps` suppresses the clearing update). Second, after
changing the action and re-entering the same parameter values, the
persisted value stays at the serialized empty mapping (the
unchanged-serialization guard compares against a stale ref). -/
theorem c6_roundtrip_counterexample :
    lookupS (applyOps (mountState [] "u1")
      [CfgOp.appChange (some ⟨"slack", "Slack", "logo"⟩),
       CfgOp.componentChange (some ⟨"slack-send-message", "Send Message", []⟩),
       CfgOp.propsUpdate (.cons "a" (Jval.num 1) .nil),
       CfgOp.propsUpdate .nil]).config "pipedreamConfiguredProps"
      = some (jstringify (Jval.obj (.cons "a" (Jval.num 1) .nil)))
    ∧ jstringify (Jval.obj (.cons "a" (Jval.num 1) .nil))
      ≠ jstringify (Jval.obj .nil)
    ∧ lookupS (applyOps (mountState [] "u1")
      [CfgOp.appChange (some ⟨"slack", "Slack", "logo"⟩),
       CfgOp.componentChange (some ⟨"slack-send-message", "Send Message", []⟩),
       CfgOp.propsUpdate (.cons "a" (Jval.num 1) .nil),
       CfgOp.componentChange (some ⟨"slack-update-message", "Update Message", []⟩),
       CfgOp.propsUpdate (.cons "a" (Jval.num 1) .nil)]).config
        "pipedreamConfiguredProps"
      = some (jstringify (Jval.obj .nil)) :=
  ⟨rfl, by decide, rfl⟩

/-- C6 (amended): the persisted configuration round-trips for every
props update that the component's guards do not suppress. In any
component state with a selected action, if the emitted parameter mapping
has unique keys, is non-empty, its serialization differs from the
last-saved serialization, and it passes the mount-time reduced-size
guard, then the persisted pipedreamConfiguredProps becomes exactly the
serialization of that mapping, and JSON-parsing it yields exactly that
mapping. -/
theorem c6_persisted_props_roundtrip (s : CState) (p : Jmembers)
    (comp : Component4)
    (hnodup : keyNodup p = true) (hne : p ≠ .nil)
    (hsel : s.selectedComponent = some comp) (hkey : comp.key ≠ "")
    (hmount : s.hasReceivedUserInput = true ∨ s.initialPropsCount = 0
      ∨ s.initialPropsCount ≤ (dedupKeys p).length)
    (hfresh : jstringify (Jval.obj p) ≠ s.lastSavedPropsJson) :
    lookupS (handleConfiguredPropsUpdate s p).config "pipedreamConfiguredProps"
      = some (jstringify (Jval.obj p))
    ∧ jparse (jstringify (Jval.obj p)) = some (Jval.obj p) := by
  refine ⟨?_, jparse_jstringify (Jval.obj p)⟩
  have hguard : ¬(¬s.hasReceivedUserInput = true ∧ 0 < s.initialPropsCount
      ∧ (dedupKeys p).length < s.initialPropsCount) := by
    rintro ⟨a, b, c⟩
    rcases hmount with h | h | h
    · exact a h
    · omega
    · omega
  simp only [handleConfiguredPropsUpdate]
  rw [if_neg hguard]
  split_ifs with hinc <;>
  · rw [persist_writes_props _ p comp (by simp [hsel]) hkey
      (by
        rintro ⟨_, _, hz⟩
        exact dedupKeys_len_pos p hne hz)
      (by
        rw [serializePropsPlain_eq p _ hnodup]
        simpa using hfresh)]
    rw [serializePropsPlain_eq p _ hnodup]

/-- Witness for C6 (amended) at a concrete state and mapping. -/
theorem c6_persisted_props_roundtrip_witness :
    lookupS (handleConfiguredPropsUpdate
        ⟨[], none, some ⟨"slack-send-message", "Send", []⟩, .nil, [], "", "",
          0, false, "u1"⟩
        (.cons "a" (Jval.num 1) .nil)).config "pipedreamConfiguredProps"
      = some (jstringify (Jval.obj (.cons "a" (Jval.num 1) .nil)))
    ∧ jparse (jstringify (Jval.obj (.cons "a" (Jval.num 1) .nil)))
      = some (Jval.obj (.cons "a" (Jval.num 1) .nil)) :=
  c6_persisted_props_roundtrip
    ⟨[], none, some ⟨"slack-send-message", "Send", []⟩, .nil, [], "", "",
      0, false, "u1"⟩
    (.cons "a" (Jval.num 1) .nil) ⟨"slack-send-message", "Send", []⟩
    (by decide) (by simp) rfl (by decide) (Or.inr (Or.inl rfl)) (by decide)

/-- C7: after `handleAppChange` with any newly selected (or cleared)
application and any prior state, the persisted pipedreamComponentKey is
the empty string and the persisted pipedreamConfiguredProps is the
serialized empty mapping (the two-character string rendered by
serializing the empty object). -/
theorem c7_app_change_resets (s : CState) (app : Option App4) :
    lookupS (handleAppChange s app).config "pipedreamComponentKey" = some ""
    ∧ lookupS (handleAppChange s app).config "pipedreamConfiguredProps"
        = some (jstringify (Jval.obj .nil))
    ∧ jstringify (Jval.obj .nil) = "\x7b\x7d" := by
  refine ⟨?_, ?_, rfl⟩
  · simp only [handleAppChange]
    rw [lookupS_setKey_other _ _ _ _ (by decide), lookupS_setKey_same]
  · simp only [handleAppChange]
    rw [lookupS_setKey_same]

/-- C8: `handleComponentChange` clears the configured parameters (the
persisted pipedreamConfiguredProps becomes the serialized empty mapping)
while never writing the pipedreamApp, pipedreamAppName or
pipedreamAppLogo keys, which therefore hold the same values afterwards,
for every prior state and every newly selected (or cleared) action. -/
theorem c8_component_change_keeps_app (s : CState) (comp : Option Component4) :
    lookupS (handleComponentChange s comp).config "pipedreamApp"
        = lookupS s.config "pipedreamApp"
    ∧ lookupS (handleComponentChange s comp).config "pipedreamAppName"
        = lookupS s.config "pipedreamAppName"
    ∧ lookupS (handleComponentChange s comp).config "pipedreamAppLogo"
        = lookupS s.config "pipedreamAppLogo"
    ∧ lookupS (handleComponentChange s comp).config "pipedreamConfiguredProps"
        = some (jstringify (Jval.obj .nil)) := by
  refine ⟨?_, ?_, ?_, ?_⟩
  · simp only [handleComponentChange]
    rw [lookupS_setKey_other _ _ _ _ (by decide),
      lookupS_setKey_other _ _ _ _ (by decide),
      persist_config_frame s .nil _ (by decide) (by decide) (by decide)]
  · simp only [handleComponentChange]
    rw [lookupS_setKey_other _ _ _ _ (by decide),
      lookupS_setKey_other _ _ _ _ (by decide),
      persist_config_frame s .nil _ (by decide) (by decide) (by decide)]
  · simp only [handleComponentChange]
    rw [lookupS_setKey_other _ _ _ _ (by decide),
      lookupS_setKey_other _ _ _ _ (by decide),
      persist_config_frame s .nil _ (by decide) (by decide) (by decide)]
  · simp only [handleComponentChange]
    rw [lookupS_setKey_same]

/-- C9: before any user input has been accepted, a props emission with
strictly fewer keys than the initially loaded props changes nothing: the
whole component state, including the form props state and the persisted
pipedreamConfiguredProps, is exactly what it was. -/
theorem c9_mount_clobber_guard (s : CState) (p : Jmembers)
    (h1 : s.hasReceivedUserInput = false) (h2 : 0 < s.initialPropsCount)
    (h3 : (dedupKeys p).length < s.initialPropsCount) :
    handleConfiguredPropsUpdate s p = s := by
  simp only [handleConfiguredPropsUpdate]
  rw [if_pos ⟨by simp [h1], h2, h3⟩]

/-- Witness for C9 at a concrete state that loaded two props. -/
theorem c9_mount_clobber_guard_witness :
    (0 : Nat) < 2
    ∧ handleConfiguredPropsUpdate
        ⟨[], none, some ⟨"k", "n", []⟩, .cons "a" (Jval.num 1) .nil, [],
          "", "", 2, false, "u"⟩ .nil
      = ⟨[], none, some ⟨"k", "n", []⟩, .cons "a" (Jval.num 1) .nil, [],
          "", "", 2, false, "u"⟩ :=
  ⟨by decide, c9_mount_clobber_guard _ .nil rfl (by decide) (by decide)⟩

/-- C10 counterexample: a props object whose key enumeration throws (a
Proxy whose ownKeys trap fails) makes `serializeProps` throw as well:
only the `Reflect.ownKeys` enumeration is guarded in the source, while
the `Object.keys` enumeration is not, so the claim that serializeProps
never throws for such objects is false at this input. -/
theorem c10_enumeration_failure_escapes :
    serializeProps ⟨.error (), .ok [], .ok [], fun _ => .ok none⟩ ["extra"]
      = .error () := rfl

/-- C10 (amended): whenever the two unguarded key enumerations
(`Object.keys` and `Object.getOwnPropertyNames`) succeed, serializeProps
returns a plain string-keyed mapping without throwing; a failing
`Reflect.ownKeys` enumeration is skipped; every discoverable key whose
read yields a defined value appears in the result with that value; keys
whose reads yield undefined, and keys whose reads throw, are omitted. -/
theorem c10_serializeProps_defensive (props : PropsObj)
    (names k1 k2 : List String)
    (h1 : props.keysEnum = .ok k1) (h2 : props.keysOwn = .ok k2) :
    ∃ m, serializeProps props names = .ok m
      ∧ (∀ k v, m.holds k v → props.getProp k = .ok (some v))
      ∧ (∀ k v, (k ∈ k1 ∨ k ∈ k2 ∨ k ∈ names
            ∨ (∃ k3, props.keysReflect = .ok k3 ∧ k ∈ k3)) →
          props.getProp k = .ok (some v) → m.holds k v)
      ∧ (∀ k, props.getProp k = .ok none → ∀ v, ¬m.holds k v)
      ∧ (∀ k, props.getProp k = .error () → ∀ v, ¬m.holds k v) := by
  cases hrefl : props.keysReflect with
  | ok k3 =>
      refine ⟨pullValues props
        (addKeys (addKeys (addKeys (addKeys [] k1) k2) names) k3), ?_, ?_, ?_, ?_, ?_⟩
      · simp only [serializeProps, collectPropKeys, h1, h2, hrefl, jsonClone_id]
      · intro k v hh
        exact pullValues_holds_getProp props _ k v hh
      · intro k v hmem hget
        refine getProp_holds_pullValues props _ k v ?_ hget
        rw [mem_addKeys, mem_addKeys, mem_addKeys, mem_addKeys]
        rcases hmem with h | h | h | ⟨k4, hk4, h⟩
        · tauto
        · tauto
        · tauto
        · cases hk4
          tauto
      · intro k hget v hh
        have := pullValues_holds_getProp props _ k v hh
        rw [hget] at this
        cases this
      · intro k hget v hh
        have := pullValues_holds_getProp props _ k v hh
        rw [hget] at this
        cases this
  | error e =>
      refine ⟨pullValues props
        (addKeys (addKeys (addKeys [] k1) k2) names), ?_, ?_, ?_, ?_, ?_⟩
      · simp only [serializeProps, collectPropKeys, h1, h2, hrefl, jsonClone_id]
      · intro k v hh
        exact pullValues_holds_getProp props _ k v hh
      · intro k v hmem hget
        refine getProp_holds_pullValues props _ k v ?_ hget
        rw [mem_addKeys, mem_addKeys, mem_addKeys]
        rcases hmem with h | h | h | ⟨k4, hk4, h⟩
        · tauto
        · tauto
        · tauto
        · exact Except.noConfusion hk4
      · intro k hget v hh
        have := pullValues_holds_getProp props _ k v hh
        rw [hget] at this
        cases this
      · intro k hget v hh
        have := pullValues_holds_getProp props _ k v hh
        rw [hget] at this
        cases this

/-- Witness for C10 (amended) at a concrete props object with one
defined key, one throwing read, a failing Reflect enumeration and an
extra prop name. -/
theorem c10_serializeProps_defensive_witness :
    (fun w : PropsObj =>
      ∃ m, serializeProps w ["c"] = .ok m
        ∧ (∀ k v, m.holds k v → w.getProp k = .ok (some v))
        ∧ (∀ k v, (k ∈ ["a"] ∨ k ∈ ["a", "b"] ∨ k ∈ ["c"]
              ∨ (∃ k3, w.keysReflect = .ok k3 ∧ k ∈ k3)) →
            w.getProp k = .ok (some v) → m.holds k v)
        ∧ (∀ k, w.getProp k = .ok none → ∀ v, ¬m.holds k v)
        ∧ (∀ k, w.getProp k = .error () → ∀ v, ¬m.holds k v))
    ⟨.ok ["a"], .ok ["a", "b"], .error (),
      fun k => if k = "a" then .ok (some (Jval.num 1))
        else if k = "b" then .error () else .ok none⟩ :=
  c10_serializeProps_defensive
    ⟨.ok ["a"], .ok ["a", "b"], .error (),
      fun k => if k = "a" then .ok (some (Jval.num 1))
        else if k = "b" then .error () else .ok none⟩
    ["c"] ["a"] ["a", "b"] rfl rfl
